/-
Verification of the sfio section-scanning engine and box-geometry engine.

This file gives a shallow embedding, in Lean 4, of the core functions of the
sfio repository (`src/sfio/base.py`, `src/sfio/func/__init__.py`,
`src/fio/box.py`) and proves or refutes the frozen specification claims
about them.  Python integers are modelled as `Int`/`Nat` (they are arbitrary
precision), byte strings as `List Nat` (each entry a byte value), Python
floats appearing only in order/equality comparisons as `ℚ`, and calls of the
repository's `ERROR` helper (which aborts the calling operation) as `none`
of an `Option` result.
-/
import Mathlib

namespace Sfio

/-! ## `Sectioned.get_index` (src/sfio/base.py, lines 216-227)

```python
ix = index - right * (int(index >= 0) - int(index == 0))
if abs(ix) - int(ix < 0) >= length + right * int(index < 0):
    ERROR(..., IndexError)
return ix + length * int(ix < 0) + right * int(index != 0)
```
-/

/-- Indicator of a decidable proposition, as the Python `int(bool)` cast. -/
def b2i (p : Prop) [Decidable p] : Int := if p then 1 else 0

/-- `Sectioned.get_index`: check index, get positive index of negative
indexing; `none` models the `IndexError` branch. -/
def get_index (index : Int) (length : Int) (right : Bool := false) : Option Int :=
  let r : Int := cond right 1 0
  let ix : Int := index - r * (b2i (0 ≤ index) - b2i (index = 0))
  if (ix.natAbs : Int) - b2i (ix < 0) ≥ length + r * b2i (index < 0) then
    none
  else
    some (ix + length * b2i (ix < 0) + r * b2i (index ≠ 0))

/-- Full characterization of `get_index` with `right := false`. -/
theorem get_index_false_eq (L : Int) (hL : 0 < L) (i : Int) :
    get_index i L false =
      if -L ≤ i ∧ i < L then some (if i < 0 then i + L else i) else none := by
  simp only [get_index, b2i, cond_false]
  split_ifs <;> first | rfl | (exfalso; omega) | (simp only [Option.some.injEq]; omega)

/-- With `right := true`, any in-range non-negative index (including
`index = length`, one-past-end) is returned unchanged. -/
theorem get_index_true_of_le (L k : Int) (hL : 0 < L) (h0 : 0 ≤ k) (hk : k ≤ L) :
    get_index k L true = some k := by
  simp only [get_index, b2i, cond_true]
  split_ifs <;> first | rfl | (exfalso; omega) | (simp only [Option.some.injEq]; omega)

/-- C2: For every integer length > 0: `get_index(length, length, right=True) ==
length`, `get_index(-1, length, right=True) == length`, and
`get_index(-1, length, right=False) == length-1`; with `right=False` the result
for a valid index always lies in `[0, length-1]` (negative `i` mapped to
`i+length`) and any index whose normalized magnitude is out of that range fails
with IndexError (modelled as `none`). -/
theorem claim_C2_get_index (L : Int) (h : 0 < L) :
    get_index L L true = some L ∧
    get_index (-1) L true = some L ∧
    get_index (-1) L false = some (L - 1) ∧
    (∀ i : Int, get_index i L false =
      if -L ≤ i ∧ i < L then some (if i < 0 then i + L else i) else none) ∧
    (∀ i r : Int, get_index i L false = some r → 0 ≤ r ∧ r ≤ L - 1) := by
  refine ⟨get_index_true_of_le L L h h.le le_rfl, ?_, ?_, get_index_false_eq L h, ?_⟩
  · simp only [get_index, b2i, cond_true]
    split_ifs <;>
      first
        | rfl
        | contradiction
        | (exfalso; omega)
        | (simp only [Option.some.injEq]; omega)
  · rw [get_index_false_eq L h]
    rw [if_pos (⟨by omega, by omega⟩ : -L ≤ (-1 : Int) ∧ (-1 : Int) < L),
      if_pos (by omega : (-1 : Int) < 0)]
    congr 1
    omega
  · intro i r hr
    rw [get_index_false_eq L h] at hr
    split_ifs at hr <;>
      first
        | exact Option.noConfusion hr
        | (simp only [Option.some.injEq] at hr; omega)

/-- Witness for C2 at length 3: the hypothesis `0 < 3` holds and the claimed
values are attained. -/
theorem claim_C2_get_index_witness :
    (0 : Int) < 3 ∧ get_index 3 3 true = some 3 ∧ get_index (-1) 3 false = some 2 :=
  ⟨by decide, (claim_C2_get_index 3 (by decide)).1,
    (claim_C2_get_index 3 (by decide)).2.2.1⟩

/-! ## `Sectioned.start_section` / `end_section` (src/sfio/base.py, lines 194-208)

```python
def end_section(self, name):
    section = self.sections.get(name, [])
    if len(section) % 2 == 1 and self.scanned > section[-1]:
        section.append(self.scanned)

def start_section(self, name):
    section = self.sections.setdefault(name, [])
    if len(section) % 2 == 0 and self.scanned >= (section or [0])[-1]:
        section.append(self.scanned)
```
-/

/-- Scan state of a `File`: the number of bytes already scanned and the
registry mapping each section name to its list of recorded byte offsets.  The
registry is modelled as a total function with default `[]`: `start_section`
inserts an empty list before testing its guard (`dict.setdefault`) and
`end_section` reads with default `[]` (`dict.get`), so a missing key behaves
exactly like a key holding `[]`. -/
structure FileState where
  scanned : Nat
  sections : String → List Nat

/-- `(section or [0])[-1]`: the last recorded offset, `0` for an empty list. -/
def lastOffset (l : List Nat) : Nat := l.getLastD 0

/-- `Sectioned.start_section`: append the cursor as a new start offset only if
the name's list has even length and the cursor is ≥ the last recorded offset. -/
def startSection (st : FileState) (name : String) : FileState :=
  let l := st.sections name
  if l.length % 2 = 0 ∧ lastOffset l ≤ st.scanned then
    { st with
      sections := fun n => if n = name then l ++ [st.scanned] else st.sections n }
  else st

/-- `Sectioned.end_section`: append the cursor as an end offset only if the
name's list has odd length and the cursor is > the open start offset. -/
def endSection (st : FileState) (name : String) : FileState :=
  let l := st.sections name
  if l.length % 2 = 1 ∧ lastOffset l < st.scanned then
    { st with
      sections := fun n => if n = name then l ++ [st.scanned] else st.sections n }
  else st

/-- One step of a scan pass over a file of `size` bytes: marking a section
start, marking a section end, or moving the cursor.  `advance` is guarded so
that the scan cursor never decreases and never exceeds the file size, which is
the cursor discipline assumed by the claims. -/
inductive ScanEvent
  | mark_start (name : String)
  | mark_end (name : String)
  | advance (t : Nat)

def scanStep (size : Nat) (st : FileState) : ScanEvent → FileState
  | .mark_start n => startSection st n
  | .mark_end n => endSection st n
  | .advance t => if st.scanned ≤ t ∧ t ≤ size then { st with scanned := t } else st

/-- A freshly constructed `File`: nothing scanned, empty registry. -/
def initState : FileState := ⟨0, fun _ => []⟩

/-- Run a sequence of scan events from the initial state. -/
def scanRun (size : Nat) (evs : List ScanEvent) : FileState :=
  evs.foldl (scanStep size) initState

/-- Well-formedness of one name's offset list at cursor `c` with lower bound
`lo`: reading the list as consecutive byte ranges, every closed range `[s, e)`
satisfies `lo ≤ s < e ≤ c`, consecutive ranges do not overlap (each range
starts at or after the previous end, hence starts strictly increase), and an
odd-length list ends in one open range whose start is ≤ `c`. -/
def rangesOK (c : Nat) : Nat → List Nat → Prop
  | _, [] => True
  | lo, [s] => lo ≤ s ∧ s ≤ c
  | lo, s :: e :: rest => lo ≤ s ∧ s < e ∧ e ≤ c ∧ rangesOK c e rest

theorem lastOffset_cons_cons (x y : Nat) (l : List Nat) :
    lastOffset (x :: y :: l) = lastOffset (y :: l) := by
  simp [lastOffset, List.getLastD_cons]

theorem rangesOK_mono {c c' : Nat} (hcc : c ≤ c') (lo : Nat) (l : List Nat)
    (h : rangesOK c lo l) : rangesOK c' lo l := by
  induction lo, l using rangesOK.induct c with
  | case1 lo => trivial
  | case2 lo s => exact ⟨h.1, h.2.trans hcc⟩
  | case3 lo s e rest ih =>
    simp only [rangesOK] at h ⊢
    exact ⟨h.1, h.2.1, h.2.2.1.trans hcc, ih h.2.2.2⟩

/-- Appending the cursor as a new start offset to an even-length well-formed
list keeps it well-formed (the new open range starts at the cursor). -/
theorem rangesOK_append_start {c : Nat} (lo : Nat) (l : List Nat)
    (h : rangesOK c lo l) (he : l.length % 2 = 0) (hlo : lo ≤ c)
    (hg : lastOffset l ≤ c) : rangesOK c lo (l ++ [c]) := by
  induction lo, l using rangesOK.induct c with
  | case1 lo => exact ⟨hlo, le_rfl⟩
  | case2 lo s => simp at he
  | case3 lo s e rest ih =>
    refine ⟨h.1, h.2.1, h.2.2.1, ih h.2.2.2 ?_ h.2.2.1 ?_⟩
    · simp only [List.length_cons] at he ⊢; omega
    · cases rest with
      | nil => exact Nat.zero_le c
      | cons a t =>
        rw [lastOffset_cons_cons, lastOffset_cons_cons] at hg
        exact hg

/-- Appending the cursor as the end offset of the open range of an odd-length
well-formed list keeps it well-formed. -/
theorem rangesOK_append_end {c : Nat} (lo : Nat) (l : List Nat)
    (h : rangesOK c lo l) (ho : l.length % 2 = 1) (hg : lastOffset l < c) :
    rangesOK c lo (l ++ [c]) := by
  induction lo, l using rangesOK.induct c with
  | case1 lo => simp at ho
  | case2 lo s =>
    exact ⟨h.1, by simpa [lastOffset] using hg, le_rfl, trivial⟩
  | case3 lo s e rest ih =>
    have hne : rest ≠ [] := by
      intro hr; rw [hr] at ho; simp at ho
    refine ⟨h.1, h.2.1, h.2.2.1, ih h.2.2.2 ?_ ?_⟩
    · simp only [List.length_cons] at ho ⊢; omega
    · cases rest with
      | nil => exact absurd rfl hne
      | cons a t =>
        rw [lastOffset_cons_cons, lastOffset_cons_cons] at hg
        exact hg

/-- The scan invariant: the cursor is within the file and every name's offset
list is well-formed at the cursor. -/
def Inv (size : Nat) (st : FileState) : Prop :=
  st.scanned ≤ size ∧ ∀ name, rangesOK st.scanned 0 (st.sections name)

theorem inv_startSection {size : Nat} {st : FileState} (h : Inv size st)
    (name : String) : Inv size (startSection st name) := by
  simp only [startSection]
  split_ifs with g
  · refine ⟨h.1, fun n => ?_⟩
    simp only
    by_cases hn : n = name
    · rw [if_pos hn]
      exact rangesOK_append_start 0 _ (h.2 name) g.1 (Nat.zero_le _) g.2
    · rw [if_neg hn]
      exact h.2 n
  · exact h

theorem inv_endSection {size : Nat} {st : FileState} (h : Inv size st)
    (name : String) : Inv size (endSection st name) := by
  simp only [endSection]
  split_ifs with g
  · refine ⟨h.1, fun n => ?_⟩
    simp only
    by_cases hn : n = name
    · rw [if_pos hn]
      exact rangesOK_append_end 0 _ (h.2 name) g.1 g.2
    · rw [if_neg hn]
      exact h.2 n
  · exact h

theorem inv_scanStep {size : Nat} {st : FileState} (h : Inv size st)
    (ev : ScanEvent) : Inv size (scanStep size st ev) := by
  cases ev with
  | mark_start n => exact inv_startSection h n
  | mark_end n => exact inv_endSection h n
  | advance t =>
    simp only [scanStep]
    split_ifs with g
    · exact ⟨g.2, fun name => rangesOK_mono g.1 0 _ (h.2 name)⟩
    · exact h

/-- C4: For every sequence of `start_section` and `end_section` calls starting
from an empty registry, with a scan cursor that never decreases and never
exceeds the file size, every per-name offset list stays a record of
non-overlapping, increasing byte ranges with `0 ≤ start < end ≤ scan cursor ≤
file size` (an odd-length list being one open range ending at the cursor); see
`rangesOK` for the exact range discipline. -/
theorem claim_C4_scan_invariant (size : Nat) (evs : List ScanEvent) :
    (scanRun size evs).scanned ≤ size ∧
    ∀ name, rangesOK (scanRun size evs).scanned 0 ((scanRun size evs).sections name) := by
  have main : ∀ (st : FileState), Inv size st →
      Inv size (evs.foldl (scanStep size) st) := by
    induction evs with
    | nil => exact fun st h => h
    | cons e t ih => exact fun st h => ih _ (inv_scanStep h e)
  exact main initState ⟨Nat.zero_le _, fun _ => trivial⟩

/-- C3 counterexample: in the reachable state where section "s" is already
open (offset list `[0]`) and the cursor has advanced to 5, calling
`start_section("s")` twice in a row appends zero offsets, not exactly one:
both calls are no-ops because the list length is odd.  This refutes the claim
that, for every File state, two successive calls append exactly one offset. -/
theorem claim_C3_counterexample :
    ¬ (((startSection (startSection
          (scanRun 5 [ScanEvent.mark_start "s", ScanEvent.advance 5]) "s") "s").sections "s").length
        = ((scanRun 5 [ScanEvent.mark_start "s", ScanEvent.advance 5]).sections "s").length + 1) := by
  decide

/-- C3 (amended): calling `start_section(name)` twice in a row with the scan
cursor unchanged appends exactly one offset when the name's list has even
length and the cursor is ≥ the last recorded offset (in particular whenever
the name is new), and zero offsets otherwise; in all cases the second call is
a no-op, leaving the whole registry identical to the state after the first
call. -/
theorem claim_C3_start_section_idempotent (st : FileState) (name : String) :
    startSection (startSection st name) name = startSection st name ∧
    (((st.sections name).length % 2 = 0 ∧ lastOffset (st.sections name) ≤ st.scanned) →
      ((startSection st name).sections name).length = (st.sections name).length + 1) ∧
    (¬((st.sections name).length % 2 = 0 ∧ lastOffset (st.sections name) ≤ st.scanned) →
      startSection st name = st) := by
  have hno : ∀ (s : FileState),
      ¬(((s.sections name).length % 2 = 0 ∧ lastOffset (s.sections name) ≤ s.scanned)) →
      startSection s name = s := by
    intro s hg
    simp only [startSection]
    rw [if_neg hg]
  refine ⟨?_, ?_, hno st⟩
  · by_cases g : (st.sections name).length % 2 = 0 ∧ lastOffset (st.sections name) ≤ st.scanned
    · have h1 : startSection st name =
          { st with sections := fun n =>
              if n = name then st.sections name ++ [st.scanned] else st.sections n } := by
        simp only [startSection]
        rw [if_pos g]
      have h2 : (startSection st name).sections name = st.sections name ++ [st.scanned] := by
        rw [h1]
        simp
      apply hno
      intro hg
      have h3 := hg.1
      rw [h2, List.length_append] at h3
      simp only [List.length_cons, List.length_nil] at h3
      have h4 := g.1
      omega
    · rw [hno st g]
      exact hno st g
  · intro g
    have h1 : startSection st name =
        { st with sections := fun n =>
            if n = name then st.sections name ++ [st.scanned] else st.sections n } := by
      simp only [startSection]
      rw [if_pos g]
    rw [h1]
    simp

/-- Witness for C3 (amended) at the initial state: the guard holds for a new
name and exactly one offset is appended, while a second call changes nothing. -/
theorem claim_C3_start_section_idempotent_witness :
    ((initState.sections "s").length % 2 = 0 ∧
      lastOffset (initState.sections "s") ≤ initState.scanned) ∧
    ((startSection initState "s").sections "s").length = (initState.sections "s").length + 1 ∧
    startSection (startSection initState "s") "s" = startSection initState "s" :=
  ⟨by decide,
    (claim_C3_start_section_idempotent initState "s").2.1 (by decide),
    (claim_C3_start_section_idempotent initState "s").1⟩

/-! ## `Section.__init__` (src/sfio/base.py, lines 93-105)

```python
max_byte = _File.open().seek(0, 2)
self.start_byte = Sectioned.get_index(start_byte, max_byte)
max_num_bytes = max(0, max_byte - self.start_byte)
self.num_bytes = int(max(0, min(num_bytes, max_num_bytes)))
```
-/

/-- `min(num_bytes, m)` where the requested `num_bytes` is an integer or the
default `float('inf')` (modelled as `none`). -/
def minWithReq (req : Option Int) (m : Int) : Int :=
  match req with
  | none => m
  | some r => min r m

/-- `Section.__init__`: normalize `start_byte` against the file size
`max_byte` via `get_index` (its IndexError is modelled as `none`), then clamp
the requested byte count.  Returns the stored `(start_byte, num_bytes)`. -/
def sectionInit (max_byte : Nat) (start_byte : Int) (req : Option Int) :
    Option (Int × Int) :=
  match get_index start_byte max_byte false with
  | none => none
  | some a => some (a, max 0 (minWithReq req (max 0 (max_byte - a))))

theorem get_index_zero_len (i : Int) : get_index i 0 false = none := by
  simp only [get_index, b2i, cond_false]
  split_ifs <;> first | rfl | contradiction | (exfalso; omega)

/-- C10: for every file size `S` and requested byte count (an integer or
infinity), a successfully constructed Section satisfies `0 ≤ start_byte` and
`start_byte + num_bytes ≤ S`: the stored `num_bytes` is clamped to
`max(0, min(requested, S - start_byte))` rather than causing an error, so a
Section's byte range never extends past the end of its file. -/
theorem claim_C10_section_clamped (S : Nat) (start_byte : Int) (req : Option Int)
    (a n : Int) (h : sectionInit S start_byte req = some (a, n)) :
    0 ≤ a ∧ a + n ≤ S ∧ n = max 0 (minWithReq req (S - a)) := by
  have key : ∀ X : Int, 0 ≤ X → X < S →
      max 0 (minWithReq req (max 0 ((S : Int) - X))) = n →
      0 ≤ X ∧ X + n ≤ S ∧ n = max 0 (minWithReq req ((S : Int) - X)) := by
    intro X hX0 hXS hn
    have hmax : max 0 ((S : Int) - X) = (S : Int) - X := max_eq_right (by omega)
    rw [hmax] at hn
    refine ⟨hX0, ?_, hn.symm⟩
    cases req with
    | none =>
      simp only [minWithReq] at hn
      omega
    | some r =>
      simp only [minWithReq] at hn
      rcases le_total r ((S : Int) - X) with hr | hr
      · rw [min_eq_left hr] at hn
        rcases le_total r 0 with h0 | h0
        · rw [max_eq_left (by omega)] at hn
          omega
        · rw [max_eq_right (by omega)] at hn
          omega
      · rw [min_eq_right hr] at hn
        rw [max_eq_right (by omega)] at hn
        omega
  rcases Nat.eq_zero_or_pos S with hS | hS
  · subst hS
    simp only [sectionInit, Nat.cast_zero] at h
    rw [get_index_zero_len start_byte] at h
    simp at h
  · have hL : (0 : Int) < S := by exact_mod_cast hS
    simp only [sectionInit] at h
    rw [get_index_false_eq _ hL start_byte] at h
    split_ifs at h with hin hneg
    · simp only [Option.some.injEq, Prod.mk.injEq] at h
      obtain ⟨ha, hn⟩ := h
      subst ha
      exact key _ (by omega) (by omega) hn
    · simp only [Option.some.injEq, Prod.mk.injEq] at h
      obtain ⟨ha, hn⟩ := h
      subst ha
      exact key _ (by omega) (by omega) hn

/-- Witness for C10: a file of 10 bytes, start byte 2, requesting 100 bytes,
stores the clamped pair `(2, 8)`. -/
theorem claim_C10_section_clamped_witness :
    sectionInit 10 2 (some 100) = some (2, 8) ∧
    (0 : Int) ≤ 2 ∧ (2 : Int) + 8 ≤ (10 : Nat) ∧
      (8 : Int) = max 0 (minWithReq (some 100) ((10 : Nat) - 2)) :=
  ⟨by decide, claim_C10_section_clamped 10 2 (some 100) 2 8 (by decide)⟩

/-! ## `Section.text` (src/sfio/base.py, lines 127-132)

```python
@property
def text(self):
    try:
        return self.raw.decode().rstrip()
    except UnicodeDecodeError:
        pass
```
-/

/-- Strict UTF-8 decoding of a byte list, as CPython's `bytes.decode()`:
rejects truncated sequences, bad continuation bytes, overlong encodings,
surrogates, and code points above U+10FFFF. -/
def utf8Decode (l : List Nat) : Option (List Char) :=
  match l with
  | [] => some []
  | b0 :: rest =>
    if b0 < 0x80 then
      (utf8Decode rest).map (Char.ofNat b0 :: ·)
    else if 0xC2 ≤ b0 ∧ b0 ≤ 0xDF then
      match rest with
      | b1 :: rest1 =>
        if 0x80 ≤ b1 ∧ b1 ≤ 0xBF then
          (utf8Decode rest1).map (Char.ofNat ((b0 - 0xC0) * 0x40 + (b1 - 0x80)) :: ·)
        else none
      | _ => none
    else if 0xE0 ≤ b0 ∧ b0 ≤ 0xEF then
      match rest with
      | b1 :: b2 :: rest2 =>
        if (0x80 ≤ b1 ∧ b1 ≤ 0xBF) ∧ (0x80 ≤ b2 ∧ b2 ≤ 0xBF) ∧
            (b0 = 0xE0 → 0xA0 ≤ b1) ∧ (b0 = 0xED → b1 ≤ 0x9F) then
          (utf8Decode rest2).map
            (Char.ofNat ((b0 - 0xE0) * 0x1000 + (b1 - 0x80) * 0x40 + (b2 - 0x80)) :: ·)
        else none
      | _ => none
    else if 0xF0 ≤ b0 ∧ b0 ≤ 0xF4 then
      match rest with
      | b1 :: b2 :: b3 :: rest3 =>
        if (0x80 ≤ b1 ∧ b1 ≤ 0xBF) ∧ (0x80 ≤ b2 ∧ b2 ≤ 0xBF) ∧ (0x80 ≤ b3 ∧ b3 ≤ 0xBF) ∧
            (b0 = 0xF0 → 0x90 ≤ b1) ∧ (b0 = 0xF4 → b1 ≤ 0x8F) then
          (utf8Decode rest3).map
            (Char.ofNat ((b0 - 0xF0) * 0x40000 + (b1 - 0x80) * 0x1000 +
              (b2 - 0x80) * 0x40 + (b3 - 0x80)) :: ·)
        else none
      | _ => none
    else none

/-- Python `str.rstrip()` whitespace set (the ASCII whitespace characters;
CPython also strips other Unicode space characters, which do not occur in any
claim here). -/
def pyWhitespace (c : Char) : Bool :=
  c == ' ' || c == '\t' || c == '\n' || c == '\r' || c == Char.ofNat 11 || c == Char.ofNat 12

/-- `str.rstrip()`: drop trailing whitespace. -/
def rstrip (s : List Char) : List Char := (s.reverse.dropWhile pyWhitespace).reverse

/-- `Section.text`: decode the section's raw bytes as UTF-8 and strip trailing
whitespace; a `UnicodeDecodeError` is swallowed and `None` is returned. -/
def sectionText (raw : List Nat) : Option (List Char) :=
  match utf8Decode raw with
  | some s => some (rstrip s)
  | none => none

/-- C9: for every Section whose raw bytes are not valid UTF-8, the text
materialization returns the `None` sentinel instead of raising, and for bytes
that decode successfully it returns the decoded (right-stripped) text; a
decode failure is never fatal to the call (`sectionText` is total). -/
theorem claim_C9_section_text (raw : List Nat) :
    (utf8Decode raw = none → sectionText raw = none) ∧
    (∀ s, utf8Decode raw = some s → sectionText raw = some (rstrip s)) := by
  constructor
  · intro h
    simp [sectionText, h]
  · intro s h
    simp [sectionText, h]

/-- Witness for C9: the invalid byte `0xFF` yields the sentinel, while the
bytes of `"hi "` decode and strip to `"hi"`. -/
theorem claim_C9_section_text_witness :
    sectionText [0xFF] = none ∧ sectionText [104, 105, 32] = some ['h', 'i'] :=
  ⟨(claim_C9_section_text [0xFF]).1 (by decide),
    ((claim_C9_section_text [104, 105, 32]).2 ['h', 'i', ' '] (by decide)).trans (by decide)⟩

/-! ## `Sectioned.get_section` (src/sfio/base.py, lines 229-271)

```python
if len(_sect) % 2:
    _sect = _sect.copy() + [File.scanned]
start = File.get_index(start_byte, File.scanned, right=True)
end = File.get_index(end_byte, File.scanned, right=True)
if start >= end:
    ERROR(...)
_sect = np.array(_sect).reshape(-1, 2)
a0 = np.searchsorted(_sect[:, 0], start)
a1 = np.searchsorted(_sect[:, 1], end + 1) - 1
N = _sect.shape[0]
if a0 >= N or a1 >= N or a0 < 0 or a1 < 0:
    ERROR(...)
elif a0 == a1:
    a, b = _sect[a0]; return Section(File, a, b - a, name)
else:
    if instance is not None:
        a, b = _sect[instance]; return Section(File, a, b - a, name)
    else:
        num_instances = a1 - a0 + 1
        instances = []
        for instance in range(num_instances):
            a, b = _sect[instance]
            instances.append(Section(File, a, b - a, name))
        return Sections(instances)
```
-/

/-- `np.array(_sect).reshape(-1, 2)`: reshape a flat offset list into
`(start, end)` pairs.  At the call site the list always has even length
(an odd-length list first has the scan cursor appended). -/
def toPairs : List Nat → List (Nat × Nat)
  | a :: b :: rest => (a, b) :: toPairs rest
  | _ => []

/-- `np.searchsorted(arr, v)` (left side) on a sorted array: the left
insertion point, i.e. the number of elements strictly below `v`.  All arrays
it is applied to here are sorted, where this count is exactly what the binary
search returns. -/
def searchsortedLeft (l : List Nat) (v : Int) : Nat :=
  l.countP (fun (x : Nat) => decide ((x : Int) < v))

/-- Python/NumPy row indexing `_sect[i]`, wrapping negative `i`; an
out-of-range index raises IndexError (`none`). -/
def pyGet (l : List (Nat × Nat)) (i : Int) : Option (Nat × Nat) :=
  if 0 ≤ i ∧ i < l.length then l.get? i.toNat
  else if -(l.length : Int) ≤ i ∧ i < 0 then l.get? (i + l.length).toNat
  else none

/-- Result of `Sectioned.get_section`: a single `Section` or a `Sections`
collection.  Each element records the `(start_byte, num_bytes)` arguments
passed to the `Section` constructor (clamping per `sectionInit` happens
inside the constructor and does not change which instances are returned). -/
inductive GSResult
  | one (sec : Nat × Nat)
  | many (secs : List (Nat × Nat))
  deriving DecidableEq

/-- `Sectioned.get_section` applied to the offset list `sect0` registered
under the queried name (a name absent from the registry raises KeyError;
querying a present-but-empty list also errors, through `a0 >= N`).  Every
`ERROR` path is modelled as `none`. -/
def get_section (sect0 : List Nat) (scanned : Nat) (start_byte end_byte : Int)
    (inst : Option Int) : Option GSResult :=
  let sect := if sect0.length % 2 = 1 then sect0 ++ [scanned] else sect0
  match get_index start_byte scanned true, get_index end_byte scanned true with
  | some start, some stop =>
    if start ≥ stop then none
    else
      let pairs := toPairs sect
      let N := pairs.length
      let a0 : Int := (searchsortedLeft (pairs.map Prod.fst) start : Nat)
      let a1 : Int := ((searchsortedLeft (pairs.map Prod.snd) (stop + 1) : Nat) : Int) - 1
      if a0 ≥ N ∨ a1 ≥ N ∨ a0 < 0 ∨ a1 < 0 then none
      else if a0 = a1 then
        (pyGet pairs a0).map (fun p => GSResult.one (p.1, p.2 - p.1))
      else
        match inst with
        | some i => (pyGet pairs i).map (fun p => GSResult.one (p.1, p.2 - p.1))
        | none =>
          some (GSResult.many
            ((pairs.take (a1 - a0 + 1).toNat).map (fun p => (p.1, p.2 - p.1))))
  | _, _ => none

/-- The stored instances `[s, e)` that overlap the byte range `[a, b)`
(`s < b` and `a < e`), in stored order.  This is the reference meaning claimed
by the spec ("all stored instances overlapping `[a,b)`"), written from the
spec's words for comparison against `get_section`. -/
def overlappingInstances (pairs : List (Nat × Nat)) (a b : Int) : List (Nat × Nat) :=
  pairs.filter (fun p => decide ((p.1 : Int) < b) && decide (a < (p.2 : Int)))

/-- The stored instances fully contained in the closed byte interval `[a, b]`
(`a ≤ s` and `e ≤ b`), in stored order.  This is what `get_section`'s binary
searches actually select. -/
def containedInstances (pairs : List (Nat × Nat)) (a b : Int) : List (Nat × Nat) :=
  pairs.filter (fun p => decide (a ≤ (p.1 : Int)) && decide ((p.2 : Int) ≤ b))

/-- C1 counterexample: registry `[0,10,20,30,40,50]` (three stored instances
`[0,10)`, `[20,30)`, `[40,50)`), file scanned to 60, query range `[20, 50)`.
The instances overlapping `[20,50)` are `[20,30)` and `[40,50)`, so the claim
predicts an ordered SectionSet of those two; `get_section` instead returns the
instances numbered 0 and 1, i.e. `[0,10)` and `[20,30)` (its multi-instance
loop reads `_sect[instance]` with `instance` running from 0, not from `a0`). -/
theorem claim_C1_counterexample :
    get_section [0, 10, 20, 30, 40, 50] 60 20 50 none ≠
      some (GSResult.many
        ((overlappingInstances (toPairs [0, 10, 20, 30, 40, 50]) 20 50).map
          (fun p => (p.1, p.2 - p.1)))) := by
  decide

/-- The range discipline of `rangesOK`, transported to `(start, end)` pairs. -/
def pairsChain (c : Nat) : Nat → List (Nat × Nat) → Prop
  | _, [] => True
  | lo, p :: rest => lo ≤ p.1 ∧ p.1 < p.2 ∧ p.2 ≤ c ∧ pairsChain c p.2 rest

theorem toPairs_chain {c : Nat} (lo : Nat) (l : List Nat) (he : l.length % 2 = 0)
    (h : rangesOK c lo l) : pairsChain c lo (toPairs l) := by
  induction lo, l using rangesOK.induct c with
  | case1 lo => trivial
  | case2 lo s => simp at he
  | case3 lo s e rest ih =>
    refine ⟨h.1, h.2.1, h.2.2.1, ih ?_ h.2.2.2⟩
    simp only [List.length_cons] at he ⊢
    omega

theorem pairsChain_mem {c : Nat} : ∀ (lo : Nat) (P : List (Nat × Nat)),
    pairsChain c lo P → ∀ p ∈ P, lo ≤ p.1 ∧ p.1 < p.2 ∧ p.2 ≤ c := by
  intro lo P
  induction P generalizing lo with
  | nil => intro _ p hp; simp at hp
  | cons q rest ih =>
    intro h p hp
    rcases List.mem_cons.mp hp with rfl | hmem
    · exact ⟨h.1, h.2.1, h.2.2.1⟩
    · have := ih q.2 h.2.2.2 p hmem
      exact ⟨le_trans (le_trans h.1 (le_of_lt h.2.1)) this.1, this.2⟩

/-- Key window lemma: on a well-formed pair list, the instances with
`av ≤ start` and `end < bv` form exactly the contiguous segment between the
two left insertion points computed by `get_section`'s binary searches. -/
theorem window_eq (c : Nat) (av bv : Int) : ∀ (lo : Nat) (P : List (Nat × Nat)),
    pairsChain c lo P →
    P.filter (fun p => decide (av ≤ (p.1 : Int)) && decide ((p.2 : Int) < bv)) =
      (P.take (searchsortedLeft (P.map Prod.snd) bv)).drop
        (searchsortedLeft (P.map Prod.fst) av) := by
  intro lo P
  induction P generalizing lo with
  | nil => intro _; rfl
  | cons p rest ih =>
    intro h
    obtain ⟨hlo, hse, hec, hrest⟩ := h
    have hmem := pairsChain_mem p.2 rest hrest
    have hIH := ih p.2 hrest
    have hS : searchsortedLeft ((p :: rest).map Prod.fst) av =
        searchsortedLeft (rest.map Prod.fst) av + if (p.1 : Int) < av then 1 else 0 := by
      simp [searchsortedLeft, List.countP_cons]
    have hE : searchsortedLeft ((p :: rest).map Prod.snd) bv =
        searchsortedLeft (rest.map Prod.snd) bv + if (p.2 : Int) < bv then 1 else 0 := by
      simp [searchsortedLeft, List.countP_cons]
    have hSzero : ¬ (p.1 : Int) < av → searchsortedLeft (rest.map Prod.fst) av = 0 := by
      intro hna
      rw [searchsortedLeft, List.countP_map, List.countP_eq_zero]
      intro q hq
      have hq' := hmem q hq
      simp only [Function.comp_apply, decide_eq_true_eq]
      omega
    have hEzero : ¬ (p.2 : Int) < bv → searchsortedLeft (rest.map Prod.snd) bv = 0 := by
      intro hnb
      rw [searchsortedLeft, List.countP_map, List.countP_eq_zero]
      intro q hq
      have hq' := hmem q hq
      simp only [Function.comp_apply, decide_eq_true_eq]
      omega
    have hFnil : ¬ (p.2 : Int) < bv → rest.filter
        (fun q => decide (av ≤ (q.1 : Int)) && decide ((q.2 : Int) < bv)) = [] := by
      intro hnb
      rw [List.filter_eq_nil_iff]
      intro q hq
      have hq' := hmem q hq
      simp only [Bool.and_eq_true, decide_eq_true_eq, not_and]
      intro _
      omega
    rw [hS, hE, List.filter_cons]
    by_cases hsa : (p.1 : Int) < av
    · rw [if_pos hsa]
      by_cases heb : (p.2 : Int) < bv
      · rw [if_pos heb,
          if_neg (by simp only [Bool.and_eq_true, decide_eq_true_eq, not_and]; omega)]
        rw [List.take_succ_cons, List.drop_succ_cons]
        exact hIH
      · rw [if_neg heb, hEzero heb, Nat.add_zero,
          if_neg (by simp only [Bool.and_eq_true, decide_eq_true_eq, not_and]; omega)]
        rw [hFnil heb]
        simp
    · rw [if_neg hsa, hSzero hsa, Nat.zero_add]
      by_cases heb : (p.2 : Int) < bv
      · rw [if_pos heb,
          if_pos (by simp only [Bool.and_eq_true, decide_eq_true_eq]; exact ⟨by omega, heb⟩)]
        rw [List.take_succ_cons, List.drop_zero]
        have hIH' := hIH
        rw [hSzero hsa, List.drop_zero] at hIH'
        rw [hIH']
      · rw [if_neg heb, hEzero heb, Nat.add_zero,
          if_neg (by simp only [Bool.and_eq_true, decide_eq_true_eq, not_and]; intro _; omega)]
        rw [hFnil heb]
        simp

/-- Reduction of `get_section` for an even-length registry and an in-range
query `[a, b)` with `a < b ≤ scanned`: both `get_index` normalizations succeed
and return `a` and `b` unchanged, and the odd-length completion is a no-op. -/
theorem get_section_reduce (sect0 : List Nat) (scanned a b : Nat) (ins : Option Int)
    (heven : sect0.length % 2 = 0) (hab : a < b) (hb : b ≤ scanned) :
    get_section sect0 scanned a b ins =
      (if ((searchsortedLeft ((toPairs sect0).map Prod.fst) a : Nat) : Int) ≥
            ((toPairs sect0).length : Int) ∨
          ((searchsortedLeft ((toPairs sect0).map Prod.snd) ((b : Int) + 1) : Nat) : Int) - 1 ≥
            ((toPairs sect0).length : Int) ∨
          ((searchsortedLeft ((toPairs sect0).map Prod.fst) a : Nat) : Int) < 0 ∨
          ((searchsortedLeft ((toPairs sect0).map Prod.snd) ((b : Int) + 1) : Nat) : Int) - 1 < 0
        then none
       else if ((searchsortedLeft ((toPairs sect0).map Prod.fst) a : Nat) : Int) =
          ((searchsortedLeft ((toPairs sect0).map Prod.snd) ((b : Int) + 1) : Nat) : Int) - 1 then
         (pyGet (toPairs sect0) (searchsortedLeft ((toPairs sect0).map Prod.fst) a)).map
           (fun p => GSResult.one (p.1, p.2 - p.1))
       else
         match ins with
         | some i => (pyGet (toPairs sect0) i).map (fun p => GSResult.one (p.1, p.2 - p.1))
         | none =>
           some (GSResult.many
             (((toPairs sect0).take
               ((((searchsortedLeft ((toPairs sect0).map Prod.snd) ((b : Int) + 1) : Nat) : Int) - 1 -
                 ((searchsortedLeft ((toPairs sect0).map Prod.fst) a : Nat) : Int) + 1).toNat)).map
               (fun p => (p.1, p.2 - p.1))))) := by
  have h0 : (0 : Int) < (scanned : Int) := by omega
  simp only [get_section]
  rw [if_neg (by omega : ¬ sect0.length % 2 = 1)]
  rw [get_index_true_of_le (scanned : Int) (a : Int) h0 (by omega) (by omega),
    get_index_true_of_le (scanned : Int) (b : Int) h0 (by omega) (by omega)]
  show (if (a : Int) ≥ (b : Int) then none else _) = _
  rw [if_neg (by omega : ¬ ((a : Int) ≥ (b : Int)))]

/-- C1 (amended): under the scan invariant, with query bytes `a < b ≤ scanned`,
`get_section` selects the stored instances fully contained in the closed
interval `[a, b]` — not all instances overlapping `[a, b)`: it fails
(NotFound) when no stored start is ≥ `a` or no stored end is ≤ `b`; when
exactly one instance is contained it returns that single Section (ignoring any
`instance` argument); otherwise, given an `instance` number it returns the
instance with that absolute position in the stored list (negative numbers
wrapping, out-of-range failing), and given none it returns an ordered
SectionSet holding as many instances as are contained but taken from the
beginning of the stored list — instances numbered `0..count-1`, not the
contained window itself (empty when both binary-search guards pass yet no
instance is contained). -/
theorem claim_C1_get_section_contained (sect0 : List Nat) (scanned a b : Nat)
    (inst : Option Int) (heven : sect0.length % 2 = 0)
    (hwf : rangesOK scanned 0 sect0) (hab : a < b) (hb : b ≤ scanned) :
    ((∀ p ∈ toPairs sect0, (p.1 : Int) < a) ∨ (∀ p ∈ toPairs sect0, (b : Int) < p.2) →
      get_section sect0 scanned a b inst = none) ∧
    ((containedInstances (toPairs sect0) a b).length = 1 →
      ∀ p ∈ containedInstances (toPairs sect0) a b,
        get_section sect0 scanned a b inst = some (GSResult.one (p.1, p.2 - p.1))) ∧
    ((containedInstances (toPairs sect0) a b).length ≠ 1 →
      (∃ p ∈ toPairs sect0, (a : Int) ≤ p.1) →
      (∃ p ∈ toPairs sect0, (p.2 : Int) ≤ b) →
      get_section sect0 scanned a b none =
        some (GSResult.many
          (((toPairs sect0).take (containedInstances (toPairs sect0) a b).length).map
            (fun p => (p.1, p.2 - p.1)))) ∧
      ∀ i : Int, get_section sect0 scanned a b (some i) =
        (pyGet (toPairs sect0) i).map (fun p => GSResult.one (p.1, p.2 - p.1))) := by
  have hchain : pairsChain scanned 0 (toPairs sect0) := toPairs_chain 0 sect0 heven hwf
  set P := toPairs sect0 with hPdef
  set nS := searchsortedLeft (P.map Prod.fst) (a : Int) with hnSdef
  set nE := searchsortedLeft (P.map Prod.snd) ((b : Int) + 1) with hnEdef
  have hwin : containedInstances P (a : Int) (b : Int) = (P.take nE).drop nS := by
    have h1 := window_eq scanned (a : Int) ((b : Int) + 1) 0 P hchain
    have hcongr : P.filter
          (fun p => decide ((a : Int) ≤ (p.1 : Int)) && decide ((p.2 : Int) ≤ (b : Int))) =
        P.filter
          (fun p => decide ((a : Int) ≤ (p.1 : Int)) && decide ((p.2 : Int) < (b : Int) + 1)) := by
      apply List.filter_congr
      intro p _
      rw [show (decide ((p.2 : Int) ≤ (b : Int))) = (decide ((p.2 : Int) < (b : Int) + 1)) from
        decide_eq_decide.mpr (by omega)]
    rw [containedInstances, hcongr]
    exact h1
  have hnE_le : nE ≤ P.length := by
    rw [hnEdef, searchsortedLeft]
    calc List.countP _ (P.map Prod.snd) ≤ (P.map Prod.snd).length := List.countP_le_length _
    _ = P.length := List.length_map _ _
  have hnS_le : nS ≤ P.length := by
    rw [hnSdef, searchsortedLeft]
    calc List.countP _ (P.map Prod.fst) ≤ (P.map Prod.fst).length := List.countP_le_length _
    _ = P.length := List.length_map _ _
  have hlenW : (containedInstances P (a : Int) (b : Int)).length = nE - nS := by
    rw [hwin, List.length_drop, List.length_take, min_eq_left hnE_le]
  refine ⟨?_, ?_, ?_⟩
  · -- NotFound when a binary-search guard fails
    intro h
    rw [get_section_reduce sect0 scanned a b inst heven hab hb, ← hPdef, ← hnSdef, ← hnEdef]
    rcases h with hall | hall
    · have hnS_eq : nS = P.length := by
        rw [hnSdef, searchsortedLeft]
        rw [List.countP_eq_length.mpr, List.length_map]
        intro x hx
        obtain ⟨p, hp, rfl⟩ := List.mem_map.mp hx
        simpa using hall p hp
      rw [if_pos (Or.inl (by omega))]
    · have hnE_eq : nE = 0 := by
        rw [hnEdef, searchsortedLeft, List.countP_eq_zero]
        intro x hx
        obtain ⟨p, hp, rfl⟩ := List.mem_map.mp hx
        have := hall p hp
        simp only [decide_eq_true_eq]
        omega
      rw [if_pos (Or.inr (Or.inr (Or.inr (by omega))))]
  · -- exactly one contained instance
    intro hW1 p hpW
    have hpP : p ∈ P ∧ (a : Int) ≤ p.1 ∧ (p.2 : Int) ≤ b := by
      have := List.mem_filter.mp hpW
      refine ⟨this.1, ?_⟩
      have := this.2
      simp only [Bool.and_eq_true, decide_eq_true_eq] at this
      exact this
    have hnS_lt : nS < P.length := by
      rcases lt_or_eq_of_le hnS_le with h | h
      · exact h
      · exfalso
        rw [hnSdef, searchsortedLeft] at h
        rw [← List.length_map P Prod.fst] at h
        have := List.countP_eq_length.mp h (p.1 : Nat) (List.mem_map_of_mem Prod.fst hpP.1)
        simp only [decide_eq_true_eq] at this
        omega
    have hnE_pos : 0 < nE := by
      rw [hnEdef, searchsortedLeft, List.countP_pos_iff]
      exact ⟨p.2, List.mem_map_of_mem Prod.snd hpP.1, by simp only [decide_eq_true_eq]; omega⟩
    have hEq : nE = nS + 1 := by omega
    rw [get_section_reduce sect0 scanned a b inst heven hab hb, ← hPdef, ← hnSdef, ← hnEdef]
    rw [if_neg (by omega), if_pos (by omega)]
    have hget : P[nS]? = some p := by
      obtain ⟨q, hq⟩ := List.length_eq_one.mp hW1
      have hpq : p = q := by
        have := hpW
        rw [hq] at this
        simpa using this
      have hhead : ((P.take nE).drop nS).head? = some p := by
        rw [← hwin, hq, hpq]
        rfl
      rw [List.head?_drop, List.getElem?_take_of_lt (by omega)] at hhead
      exact hhead
    rw [pyGet, if_pos ⟨Int.natCast_nonneg nS, by omega⟩]
    rw [Int.toNat_natCast, List.get?_eq_getElem?, hget]
    rfl
  · -- zero or several contained instances, both guards passing
    intro hWne hexS hexE
    obtain ⟨ps, hpsP, hpsa⟩ := hexS
    obtain ⟨pe, hpeP, hpeb⟩ := hexE
    have hnS_lt : nS < P.length := by
      rcases lt_or_eq_of_le hnS_le with h | h
      · exact h
      · exfalso
        rw [hnSdef, searchsortedLeft] at h
        rw [← List.length_map P Prod.fst] at h
        have := List.countP_eq_length.mp h (ps.1 : Nat) (List.mem_map_of_mem Prod.fst hpsP)
        simp only [decide_eq_true_eq] at this
        omega
    have hnE_pos : 0 < nE := by
      rw [hnEdef, searchsortedLeft, List.countP_pos_iff]
      exact ⟨pe.2, List.mem_map_of_mem Prod.snd hpeP, by simp only [decide_eq_true_eq]; omega⟩
    have hne : ¬ ((nS : Int) = (nE : Int) - 1) := by
      intro h
      apply hWne
      rw [hlenW]
      omega
    constructor
    · rw [get_section_reduce sect0 scanned a b none heven hab hb, ← hPdef, ← hnSdef, ← hnEdef]
      rw [if_neg (by omega), if_neg hne]
      rw [show ((nE : Int) - 1 - (nS : Int) + 1).toNat =
          (containedInstances P (a : Int) (b : Int)).length by rw [hlenW]; omega]
    · intro i
      rw [get_section_reduce sect0 scanned a b (some i) heven hab hb, ← hPdef, ← hnSdef, ← hnEdef]
      rw [if_neg (by omega), if_neg hne]

/-- Witness for C1 (amended) at the counterexample registry: two instances are
contained in `[20, 50]`, and the returned SectionSet holds the first two
stored instances `[0,10)` and `[20,30)`. -/
theorem claim_C1_get_section_contained_witness :
    (20 : Nat) < 50 ∧ (50 : Nat) ≤ 60 ∧
    get_section [0, 10, 20, 30, 40, 50] 60 20 50 none =
      some (GSResult.many [(0, 10), (20, 10)]) :=
  ⟨by decide, by decide,
    (((claim_C1_get_section_contained [0, 10, 20, 30, 40, 50] 60 20 50 none
        (by decide) (by simp [rangesOK]) (by decide) (by decide)).2.2
      (by decide) (by decide) (by decide)).1).trans (by decide)⟩

/-! ## `Box._guess_type` / `Box.set_input` type detection (src/fio/box.py,
lines 189-229)

```python
def _guess_type(self, argv):
    if argv is None:
        raise ERROR('Missing Box input parameters', trace=0)
    elif len(argv) == 9:
        if argv[0] < argv[1] and argv[2] < argv[3] and argv[4] < argv[5]:
            return 'lmpdata'
        elif argv[0] < argv[1] and argv[3] < argv[4] and argv[6] < argv[7]:
            return 'lmpdump'
        else:
            return 'basis'
    elif len(argv) == 6:
        if argv[1] <= 1 and argv[3] <= 1 and argv[4] <= 1:
            return 'dcd'
        else:
            return 'lattice'
    else:
        raise ERROR('Incorrect Box input parameters', trace=0)
```
-/

inductive BoxType
  | lmpdata
  | lmpdump
  | basis
  | dcd
  | lattice
  deriving DecidableEq

/-- `Box._guess_type` on a flat numeric input.  Python floats are modelled as
`ℚ` (only order comparisons are performed); `none` models the `ERROR` raised
for any length other than 9 or 6. -/
def guess_type (argv : List ℚ) : Option BoxType :=
  if argv.length = 9 then
    if argv[0]! < argv[1]! ∧ argv[2]! < argv[3]! ∧ argv[4]! < argv[5]! then
      some BoxType.lmpdata
    else if argv[0]! < argv[1]! ∧ argv[3]! < argv[4]! ∧ argv[6]! < argv[7]! then
      some BoxType.lmpdump
    else some BoxType.basis
  else if argv.length = 6 then
    if argv[1]! ≤ 1 ∧ argv[3]! ≤ 1 ∧ argv[4]! ≤ 1 then some BoxType.dcd
    else some BoxType.lattice
  else none

/-- The type-detection stage of `Box.set_input` with no explicit type:
`_format_input` rejects a single-element input first (`"Read Box from file is
not yet implemented"`), then `_guess_type` classifies by element count. -/
def set_input_guess (argv : List ℚ) : Option BoxType :=
  if argv.length = 1 then none else guess_type argv

/-- C7: for every untyped flat numeric Box input whose element count is
neither 9 nor 6, `set_input` with no explicit type fails (ValueError per the
spec's taxonomy, modelled as `none`); 9 elements are classified lmpdata vs
lmpdump vs basis, 6 elements dcd vs lattice. -/
theorem claim_C7_box_input_length (argv : List ℚ) :
    (argv.length ≠ 9 ∧ argv.length ≠ 6 → set_input_guess argv = none) ∧
    (argv.length = 9 →
      set_input_guess argv = some BoxType.lmpdata ∨
      set_input_guess argv = some BoxType.lmpdump ∨
      set_input_guess argv = some BoxType.basis) ∧
    (argv.length = 6 →
      set_input_guess argv = some BoxType.dcd ∨
      set_input_guess argv = some BoxType.lattice) := by
  refine ⟨?_, ?_, ?_⟩
  · intro h
    simp only [set_input_guess, guess_type]
    split_ifs <;> first | rfl | (exfalso; omega)
  · intro h
    simp only [set_input_guess, guess_type]
    split_ifs <;> first | (exfalso; omega) | tauto
  · intro h
    simp only [set_input_guess, guess_type]
    split_ifs <;> first | (exfalso; omega) | tauto

/-- Witness for C7: a 3-element input is rejected, while a 6-element lattice
input is classified. -/
theorem claim_C7_box_input_length_witness :
    (([1, 2, 3] : List ℚ).length ≠ 9 ∧ ([1, 2, 3] : List ℚ).length ≠ 6) ∧
    set_input_guess [1, 2, 3] = none ∧
    set_input_guess [10, 10, 10, 90, 90, 90] = some BoxType.lattice :=
  ⟨by decide, (claim_C7_box_input_length [1, 2, 3]).1 (by decide),
    ((claim_C7_box_input_length [10, 10, 10, 90, 90, 90]).2.2 (by decide)).resolve_left
      (by decide)⟩

/-! ## `BoxInputDict` and its tilt invariant (src/fio/box.py, lines 30-68)

```python
def __setattr__(self, key, value):
    if key not in [*self.keys(), '__dict__']:
        raise KeyError(...)
    else:
        super().__setattr__(key, value)
        self._check_allow_tilt(key, value)

def _check_allow_tilt(self, key, value):
    if key in abg and value != 90:
        self.__dict__['allow_tilt'] = True
    elif key == 'allow_tilt' and not self['allow_tilt']:
        if any([self[k] != 90 for k in abg]):
            logger.warning(...)
            self.__dict__['allow_tilt'] = True
```
-/

/-- The 13 canonical Box input fields.  Numeric fields are `ℚ` (only equality
with 90 is examined by the tilt check), boundary codes are strings. -/
structure BoxInput where
  x0 : ℚ
  y0 : ℚ
  z0 : ℚ
  lx : ℚ
  ly : ℚ
  lz : ℚ
  alpha : ℚ
  beta : ℚ
  gamma : ℚ
  allow_tilt : Bool
  bx : String
  b_y : String
  bz : String

/-- The default Box input constructed by `Box.__init__` before any update. -/
def defaultBoxInput : BoxInput :=
  ⟨0, 0, 0, 1, 1, 1, 90, 90, 90, false, "pp", "pp", "pp"⟩

/-- One assignment through `BoxInputDict.__setattr__`/`__setitem__`; the 13
valid keys are the constructors (any other key raises KeyError and changes
nothing). -/
inductive BoxAssign
  | x0 (v : ℚ)
  | y0 (v : ℚ)
  | z0 (v : ℚ)
  | lx (v : ℚ)
  | ly (v : ℚ)
  | lz (v : ℚ)
  | alpha (v : ℚ)
  | beta (v : ℚ)
  | gamma (v : ℚ)
  | allow_tilt (v : Bool)
  | bx (v : String)
  | b_y (v : String)
  | bz (v : String)

/-- `_check_allow_tilt` applied after the plain field write: an angle set to a
value ≠ 90 forces `allow_tilt := true`; writing `allow_tilt := false` while
some angle ≠ 90 immediately resets it to `true`. -/
def boxSet (st : BoxInput) : BoxAssign → BoxInput
  | .x0 v => { st with x0 := v }
  | .y0 v => { st with y0 := v }
  | .z0 v => { st with z0 := v }
  | .lx v => { st with lx := v }
  | .ly v => { st with ly := v }
  | .lz v => { st with lz := v }
  | .alpha v =>
    if v ≠ 90 then { st with alpha := v, allow_tilt := true } else { st with alpha := v }
  | .beta v =>
    if v ≠ 90 then { st with beta := v, allow_tilt := true } else { st with beta := v }
  | .gamma v =>
    if v ≠ 90 then { st with gamma := v, allow_tilt := true } else { st with gamma := v }
  | .allow_tilt v =>
    if v = false ∧ (st.alpha ≠ 90 ∨ st.beta ≠ 90 ∨ st.gamma ≠ 90) then
      { st with allow_tilt := true }
    else { st with allow_tilt := v }
  | .bx v => { st with bx := v }
  | .b_y v => { st with b_y := v }
  | .bz v => { st with bz := v }

/-- The tilt invariant: `allow_tilt` is true whenever some angle is ≠ 90°. -/
def TiltInv (st : BoxInput) : Prop :=
  (st.alpha ≠ 90 ∨ st.beta ≠ 90 ∨ st.gamma ≠ 90) → st.allow_tilt = true

theorem tiltInv_boxSet {st : BoxInput} (h : TiltInv st) (ev : BoxAssign) :
    TiltInv (boxSet st ev) := by
  cases ev with
  | x0 v => exact h
  | y0 v => exact h
  | z0 v => exact h
  | lx v => exact h
  | ly v => exact h
  | lz v => exact h
  | bx v => exact h
  | b_y v => exact h
  | bz v => exact h
  | alpha v =>
    simp only [boxSet]
    split_ifs with hv
    · intro _
      rfl
    · push_neg at hv
      intro hne
      apply h
      rcases hne with h1 | h1 | h1
      · exact absurd hv h1
      · exact Or.inr (Or.inl h1)
      · exact Or.inr (Or.inr h1)
  | beta v =>
    simp only [boxSet]
    split_ifs with hv
    · intro _
      rfl
    · push_neg at hv
      intro hne
      apply h
      rcases hne with h1 | h1 | h1
      · exact Or.inl h1
      · exact absurd hv h1
      · exact Or.inr (Or.inr h1)
  | gamma v =>
    simp only [boxSet]
    split_ifs with hv
    · intro _
      rfl
    · push_neg at hv
      intro hne
      apply h
      rcases hne with h1 | h1 | h1
      · exact Or.inl h1
      · exact Or.inr (Or.inl h1)
      · exact absurd hv h1
  | allow_tilt v =>
    simp only [boxSet]
    split_ifs with hg
    · intro _
      rfl
    · intro hne
      rcases Bool.eq_false_or_eq_true v with hv | hv
      · exact hv
      · exact absurd ⟨hv, hne⟩ hg

/-- C8: assigning any of alpha, beta, gamma a value ≠ 90 through the input
setter forces `allow_tilt` to true; assigning `allow_tilt := false` while some
angle is ≠ 90 leaves it true; and after any sequence of input assignments from
the default-constructed Box input, `allow_tilt` is true whenever some angle
differs from 90°. -/
theorem claim_C8_allow_tilt (st : BoxInput) (v : ℚ) (hv : v ≠ 90) :
    ((boxSet st (BoxAssign.alpha v)).allow_tilt = true ∧
     (boxSet st (BoxAssign.beta v)).allow_tilt = true ∧
     (boxSet st (BoxAssign.gamma v)).allow_tilt = true) ∧
    ((st.alpha ≠ 90 ∨ st.beta ≠ 90 ∨ st.gamma ≠ 90) →
      (boxSet st (BoxAssign.allow_tilt false)).allow_tilt = true) ∧
    (∀ evs : List BoxAssign, TiltInv (evs.foldl boxSet defaultBoxInput)) := by
  refine ⟨⟨?_, ?_, ?_⟩, ?_, ?_⟩
  · simp [boxSet, hv]
  · simp [boxSet, hv]
  · simp [boxSet, hv]
  · intro hangle
    simp [boxSet, hangle]
  · intro evs
    have main : ∀ (s : BoxInput), TiltInv s → TiltInv (evs.foldl boxSet s) := by
      induction evs with
      | nil => exact fun s h => h
      | cons e t ih => exact fun s h => ih _ (tiltInv_boxSet h e)
    exact main defaultBoxInput (by intro h; exact absurd h (by simp [defaultBoxInput]))

/-- Witness for C8: setting alpha to 108 ≠ 90 on the default input forces the
tilt flag on. -/
theorem claim_C8_allow_tilt_witness :
    (108 : ℚ) ≠ 90 ∧ (boxSet defaultBoxInput (BoxAssign.alpha 108)).allow_tilt = true :=
  ⟨by norm_num, (claim_C8_allow_tilt defaultBoxInput 108 (by norm_num)).1.1⟩

/-! ## `Fortran_unformatted.get_block` / `put_block` (src/sfio/base.py,
lines 301-331), with `dtype='int32'` (the default; itemsize 4)

```python
m1 = int(np.squeeze(np.fromfile(fh, dtype=dtype, count=1)))
b = np.fromfile(fh, dtype=np.dtype(dtype, m1), count=int(m1 / size))
m2 = int(np.squeeze(np.fromfile(fh, dtype=dtype, count=1)))
if m1 != m2:
    ERROR('start & end of block %d != %d' % (m1, m2), ValueError)
return (m1, b)

def put_block(fh, dtype, alist):
    b = np.array(alist, dtype=dtype)
    m = np.array(b.size * np.dtype(dtype).itemsize, dtype='int32')
    m.tofile(fh); b.tofile(fh); m.tofile(fh)
```
-/

/-- Little-endian two's-complement 4-byte encoding of an int32 value
(`4294967296 = 2^32`). -/
def int32le (n : Int) : List Nat :=
  let m := (n % 4294967296).toNat
  [m % 256, m / 256 % 256, m / 65536 % 256, m / 16777216 % 256]

/-- Decode 4 little-endian bytes as a signed int32, returning the remaining
bytes; `none` when fewer than 4 bytes remain (NumPy then yields an empty
array and `int(np.squeeze(...))` raises). -/
def readInt32 : List Nat → Option (Int × List Nat)
  | b0 :: b1 :: b2 :: b3 :: rest =>
    let u : Nat := b0 + 256 * b1 + 65536 * b2 + 16777216 * b3
    some (if u < 2147483648 then (u : Int) else (u : Int) - 4294967296, rest)
  | _ => none

/-- `np.fromfile(fh, int32, count)`: read up to `count` int32 values,
stopping early when fewer than 4 bytes remain (NumPy reads what is
available without raising). -/
def readManyInt32 : Nat → List Nat → List Int × List Nat
  | 0, rest => ([], rest)
  | n + 1, bytes =>
    match readInt32 bytes with
    | none => ([], bytes)
    | some (v, rest) =>
      let p := readManyInt32 n rest
      (v :: p.1, p.2)

/-- `Fortran_unformatted.get_block` on a byte stream: read the leading int32
size, `m1 / 4` int32 payload values, and the trailing int32 size; fail if the
delimiters differ.  A negative leading size makes `np.fromfile` consume the
whole remainder, after which the trailing size read fails; both are `none`. -/
def get_block (bytes : List Nat) : Option (Int × List Int) :=
  match readInt32 bytes with
  | none => none
  | some (m1, rest) =>
    if m1 < 0 then none
    else
      let p := readManyInt32 (m1.toNat / 4) rest
      match readInt32 p.2 with
      | none => none
      | some (m2, _) => if m1 ≠ m2 then none else some (m1, p.1)

/-- `Fortran_unformatted.put_block` with int32 elements: leading size
`4 * count`, payload, trailing size. -/
def put_block (alist : List Int) : List Nat :=
  let m : Int := (4 * alist.length : Nat)
  int32le m ++ (alist.map int32le).flatten ++ int32le m

theorem readInt32_int32le (m : Int) (h1 : -2147483648 ≤ m) (h2 : m < 2147483648)
    (rest : List Nat) : readInt32 (int32le m ++ rest) = some (m, rest) := by
  simp only [int32le, readInt32, List.cons_append, List.nil_append,
    Option.some.injEq, Prod.mk.injEq]
  refine ⟨?_, trivial⟩
  split_ifs <;> omega

theorem readManyInt32_snd (k : Nat) : ∀ (payload tail : List Nat),
    payload.length = 4 * k →
    (readManyInt32 k (payload ++ tail)).2 = tail := by
  induction k with
  | zero =>
    intro payload tail h
    rw [List.length_eq_zero.mp h]
    rfl
  | succ n ih =>
    intro payload tail h
    rcases payload with _ | ⟨b0, _ | ⟨b1, _ | ⟨b2, _ | ⟨b3, p'⟩⟩⟩⟩ <;>
      simp only [List.length_nil, List.length_cons] at h
    · omega
    · omega
    · omega
    · omega
    · simp only [List.cons_append, readManyInt32, readInt32]
      exact ih p' tail (by omega)

/-- C6: writing a binary block with the three int32 payload values `[1,2,3]`
via `put_block` emits a leading int32 size of 12, the 12 payload bytes, and a
trailing int32 size equal to the leading one; reading that block back via
`get_block` returns size 12 and payload `[1,2,3]`; and `get_block` fails
whenever the leading and trailing size delimiters differ (for any well-formed
block shape: a 4-byte-aligned payload matching the leading size, followed by a
trailing int32 ≠ the leading size). -/
theorem claim_C6_fortran_block :
    put_block [1, 2, 3] =
      int32le 12 ++ [1, 0, 0, 0, 2, 0, 0, 0, 3, 0, 0, 0] ++ int32le 12 ∧
    int32le 12 = [12, 0, 0, 0] ∧
    get_block (put_block [1, 2, 3]) = some (12, [1, 2, 3]) ∧
    (∀ (k : Nat) (m2 : Int) (payload rest : List Nat),
      payload.length = 4 * k →
      (4 * k : Int) < 2147483648 →
      -2147483648 ≤ m2 → m2 < 2147483648 →
      (4 * k : Int) ≠ m2 →
      get_block (int32le (4 * k) ++ payload ++ int32le m2 ++ rest) = none) := by
  refine ⟨by decide, by decide, by decide, ?_⟩
  intro k m2 payload rest hlen hk hm2a hm2b hne
  rw [List.append_assoc, List.append_assoc]
  simp only [get_block]
  rw [readInt32_int32le (4 * k) (by omega) (by omega)]
  show (if (4 * k : Int) < 0 then none else _) = none
  rw [if_neg (by omega)]
  rw [show ((4 * k : Int)).toNat / 4 = k by omega]
  rw [readManyInt32_snd k payload (int32le m2 ++ rest) hlen]
  rw [readInt32_int32le m2 hm2a hm2b]
  show (if (4 * k : Int) ≠ m2 then none else _) = none
  rw [if_pos hne]

/-- Witness for C6's delimiter-mismatch clause: a block with leading size 12,
12 payload bytes, and trailing size 8 fails. -/
theorem claim_C6_fortran_block_witness :
    (([0, 0, 0, 0, 0, 0, 0, 0, 0, 0, 0, 0] : List Nat).length = 4 * 3) ∧
    (4 * 3 : Int) ≠ 8 ∧
    get_block (int32le (4 * 3) ++ [0, 0, 0, 0, 0, 0, 0, 0, 0, 0, 0, 0] ++ int32le 8 ++ []) =
      none :=
  ⟨by decide, by decide,
    claim_C6_fortran_block.2.2.2 3 8 [0, 0, 0, 0, 0, 0, 0, 0, 0, 0, 0, 0] []
      (by decide) (by decide) (by decide) (by decide) (by decide)⟩

/-! ## `search_in_file` (src/sfio/func/__init__.py, lines 34-67)

```python
def search_in_file(fd, patterns, seek=0, bufsize=1e6):
    patterns = list(flatten(patterns))
    matches = [[] if isinstance(b, bytes) else None for b in patterns]
    pats = [(i, b) for i, b in enumerate(patterns) if isinstance(b, bytes)]
    searches = [re.compile(b'^.*' + pat, re.M) for _, pat in pats]
    overlap = max([len(pattern[1]) for pattern in pats])
    bufsize = int(bufsize * (overlap // bufsize + 1))
    last_start = fd.seek(seek)
    while True:
        buf = fd.read(bufsize)
        pos0 = fd.tell() - len(buf)
        for (i, pat), search in zip(pats, searches):
            pos = [pos0 + s.start() for s in re.finditer(search, buf)]
            matches[i].extend(pos)
        next_start = fd.tell() - overlap + 1
        if next_start == last_start:
            return [list(dict.fromkeys(v)) if v is not None else None
                    for v in matches]
        last_start = next_start
        fd.seek(next_start)
```

All patterns here are literal newline-free byte strings (as at both call sites
in the repository), for which the regex `b'^.*' + pat` with `re.M` matches,
in each buffer, exactly the anchors (buffer position 0 and each position after
a newline byte) whose maximal newline-free segment contains `pat`, reporting
the anchor position once.
-/

/-- The anchor positions at which `re.M`'s `^` matches in a buffer: position 0
and every position just after a newline byte. -/
def lineStarts (buf : List Nat) : List Nat :=
  0 :: ((List.range buf.length).filter (fun i => buf.get? i == some 10)).map (· + 1)

/-- The maximal newline-free byte segment starting at position `ℓ`. -/
def lineSegment (buf : List Nat) (ℓ : Nat) : List Nat :=
  (buf.drop ℓ).takeWhile (fun b => b != 10)

/-- The match start offsets of `re.finditer(b'^.*' + pat, buf, re.M)` for a
literal newline-free pattern: the anchors whose segment contains `pat`. -/
def findMatches (buf pat : List Nat) : List Nat :=
  (lineStarts buf).filter (fun ℓ => decide (pat <:+: lineSegment buf ℓ))

/-- `list(dict.fromkeys(v))`: remove duplicates, keeping first occurrences. -/
def dedupFirst (seen : List Nat) : List Nat → List Nat
  | [] => []
  | a :: l => if a ∈ seen then dedupFirst seen l else a :: dedupFirst (a :: seen) l

/-- The `while True` loop of `search_in_file`, reading at position `p`
(which always equals `last_start`), with explicit fuel.  `none` models fuel
exhaustion and a negative seek (neither is reached with the fuel chosen in
`search_in_file`: each iteration either terminates or moves the next start
forward, except for one final backward step near the end of the stream). -/
def searchLoop (stream : List Nat) (pats : List (List Nat)) (ov B : Nat) :
    Nat → Nat → List (List Nat) → Option (List (List Nat))
  | _, 0, _ => none
  | p, fuel + 1, acc =>
    let buf := (stream.drop p).take B
    let tell := p + buf.length
    let acc' := (pats.zip acc).map (fun pm => pm.2 ++ (findMatches buf pm.1).map (· + p))
    let next : Int := (tell : Int) - ov + 1
    if next = (p : Int) then some (acc'.map (dedupFirst []))
    else if next < 0 then none
    else searchLoop stream pats ov B next.toNat fuel acc'

/-- `search_in_file(fd, patterns, seek, bufsize)` over a byte stream.
`overlap` is the longest pattern length (the empty pattern list, which raises
in Python, is not used by any claim); the buffer size is inflated to a
multiple of itself exceeding `overlap`. -/
def search_in_file (stream : List Nat) (patterns : List (List Nat))
    (seek : Nat) (bufsize : Nat) : Option (List (List Nat)) :=
  let ov := (patterns.map List.length).foldr max 0
  let B := bufsize * (ov / bufsize + 1)
  searchLoop stream patterns ov B seek (stream.length + seek + 4)
    (patterns.map (fun _ => []))

/-- C5 counterexample: for the 12-byte stream `b"aaaaaaaapat\n"` (one line,
with the pattern `b"pat"` starting at byte 8) the chunk sizes 1× and 100× the
longest pattern's length disagree: the 1× scan reports offset 8 — a buffer
that begins mid-line is treated as a line start by the `^` anchor — while the
single-chunk scan reports the true line start 0. -/
theorem claim_C5_counterexample :
    search_in_file [97, 97, 97, 97, 97, 97, 97, 97, 112, 97, 116, 10] [[112, 97, 116]] 0 3 ≠
    search_in_file [97, 97, 97, 97, 97, 97, 97, 97, 112, 97, 116, 10] [[112, 97, 116]] 0 300 := by
  decide

theorem lineStarts_pairwise (buf : List Nat) : (lineStarts buf).Pairwise (· < ·) := by
  rw [lineStarts, List.pairwise_cons]
  constructor
  · intro y hy
    obtain ⟨i, _, rfl⟩ := List.mem_map.mp hy
    omega
  · rw [List.pairwise_map]
    exact ((List.pairwise_lt_range _).filter _).imp (fun h => by omega)

theorem lineStarts_le (buf : List Nat) : ∀ ℓ ∈ lineStarts buf, ℓ ≤ buf.length := by
  intro ℓ hℓ
  rw [lineStarts] at hℓ
  rcases List.mem_cons.mp hℓ with rfl | hℓ
  · exact Nat.zero_le _
  · obtain ⟨i, hi, rfl⟩ := List.mem_map.mp hℓ
    have := (List.mem_filter.mp hi).1
    rw [List.mem_range] at this
    omega

theorem findMatches_pairwise (buf pat : List Nat) :
    (findMatches buf pat).Pairwise (· < ·) :=
  (lineStarts_pairwise buf).filter _

theorem findMatches_bound (buf pat : List Nat) :
    ∀ ℓ ∈ findMatches buf pat, ℓ + pat.length ≤ buf.length := by
  intro ℓ hℓ
  rw [findMatches, List.mem_filter] at hℓ
  have hℓle := lineStarts_le buf ℓ hℓ.1
  have hinf : pat <:+: lineSegment buf ℓ := of_decide_eq_true hℓ.2
  have h1 := hinf.length_le
  have h2 : (lineSegment buf ℓ).length ≤ buf.length - ℓ := by
    rw [lineSegment]
    calc ((buf.drop ℓ).takeWhile _).length ≤ (buf.drop ℓ).length :=
          (List.takeWhile_sublist _).length_le
    _ = buf.length - ℓ := List.length_drop _ _
  omega

theorem findMatches_nil_of_short (buf pat : List Nat) (h : buf.length < pat.length) :
    findMatches buf pat = [] := by
  rcases hfm : findMatches buf pat with _ | ⟨ℓ, l⟩
  · rfl
  · exfalso
    have := findMatches_bound buf pat ℓ (by rw [hfm]; exact List.mem_cons_self ℓ l)
    omega

theorem dedupFirst_eq_self : ∀ (l seen : List Nat), l.Pairwise (· < ·) →
    (∀ x ∈ l, x ∉ seen) → dedupFirst seen l = l := by
  intro l
  induction l with
  | nil => intro seen _ _; rfl
  | cons a l ih =>
    intro seen hpw hni
    rw [dedupFirst, if_neg (hni a (List.mem_cons_self a l))]
    congr 1
    refine ih (a :: seen) (List.Pairwise.of_cons hpw) ?_
    intro x hx
    have hax : a < x := (List.pairwise_cons.mp hpw).1 x hx
    intro hmem
    rcases List.mem_cons.mp hmem with rfl | hmem
    · omega
    · exact hni x (List.mem_cons_of_mem a hx) hmem

theorem searchLoop_bigB (stream pat : List Nat) (hp : 0 < pat.length)
    (hpN : pat.length ≤ stream.length) (B : Nat) (hB : stream.length ≤ B)
    (fuel : Nat) (hfuel : 2 ≤ fuel) :
    searchLoop stream [pat] pat.length B 0 fuel [[]] =
      some [dedupFirst [] (findMatches stream pat)] := by
  match fuel, hfuel with
  | f + 2, _ =>
  simp only [searchLoop, List.drop_zero, List.take_of_length_le hB,
    List.zip_cons_cons, List.zip_nil_left, List.map_cons, List.map_nil, List.nil_append,
    Nat.zero_add, add_zero, Nat.cast_zero, List.map_id']
  rw [show ((stream.length : Int) - pat.length + 1).toNat
      = stream.length - pat.length + 1 by omega]
  have hdlen : (stream.drop (stream.length - pat.length + 1)).length ≤ B := by
    rw [List.length_drop]
    omega
  have hdshort : (stream.drop (stream.length - pat.length + 1)).length < pat.length := by
    rw [List.length_drop]
    omega
  rw [List.take_of_length_le hdlen, findMatches_nil_of_short _ _ hdshort]
  simp only [List.map_nil, List.append_nil, List.length_drop]
  split_ifs <;> first | rfl | (exfalso; omega)

theorem search_in_file_bigB (stream pat : List Nat) (hp : 0 < pat.length)
    (hpN : pat.length ≤ stream.length) (B : Nat) (hB : stream.length ≤ B) :
    search_in_file stream [pat] 0 B = some [dedupFirst [] (findMatches stream pat)] := by
  simp only [search_in_file, List.map_cons, List.map_nil, List.foldr_cons, List.foldr_nil]
  rw [Nat.max_zero]
  have hB' : stream.length ≤ B * (pat.length / B + 1) :=
    le_trans hB (Nat.le_mul_of_pos_right B (Nat.succ_pos _))
  exact searchLoop_bigB stream pat hp hpN _ hB' _ (by omega)

theorem searchLoop_pairwise (stream pat : List Nat) (hp : 0 < pat.length) (B : Nat)
    (hB : pat.length ≤ B) :
    ∀ (fuel p : Nat) (acc : List Nat),
      acc.Pairwise (· < ·) →
      (∀ x ∈ acc, x < p ∧ x + pat.length ≤ stream.length) →
      ∀ res, searchLoop stream [pat] pat.length B p fuel [acc] = some res →
      ∃ l, res = [l] ∧ l.Pairwise (· < ·) := by
  intro fuel
  induction fuel with
  | zero =>
    intro p acc _ _ res hres
    simp [searchLoop] at hres
  | succ f ih =>
    intro p acc hpw hbound res hres
    simp only [searchLoop, List.zip_cons_cons, List.zip_nil_left, List.map_cons,
      List.map_nil] at hres
    have hbuflen : ((stream.drop p).take B).length = min B (stream.length - p) := by
      rw [List.length_take, List.length_drop]
    have hnewb := findMatches_bound ((stream.drop p).take B) pat
    have hnewpw : ((findMatches ((stream.drop p).take B) pat).map (· + p)).Pairwise (· < ·) := by
      rw [List.pairwise_map]
      exact (findMatches_pairwise _ _).imp (fun h => by omega)
    have hcomb : (acc ++
        (findMatches ((stream.drop p).take B) pat).map (· + p)).Pairwise (· < ·) := by
      rw [List.pairwise_append]
      refine ⟨hpw, hnewpw, ?_⟩
      intro x hx y hy
      obtain ⟨ℓ, hℓ, rfl⟩ := List.mem_map.mp hy
      have := (hbound x hx).1
      omega
    split_ifs at hres with h1 h2
    · simp only [List.map_cons, List.map_nil, Option.some.injEq] at hres
      refine ⟨dedupFirst [] (acc ++
        (findMatches ((stream.drop p).take B) pat).map (· + p)), ?_, ?_⟩
      · rw [← hres]
      · rw [dedupFirst_eq_self _ [] hcomb (by simp)]
        exact hcomb
    · refine ih _ _ hcomb ?_ res hres
      intro x hx
      rcases List.mem_append.mp hx with hxa | hxn
      · have h := hbound x hxa
        refine ⟨?_, h.2⟩
        omega
      · obtain ⟨ℓ, hℓ, rfl⟩ := List.mem_map.mp hxn
        have h := hnewb ℓ hℓ
        refine ⟨?_, ?_⟩ <;> omega
/-- C5 (amended): for a fixed finite byte stream, start cursor 0, and a single
non-empty newline-free literal pattern no longer than the stream,
`search_in_file` returns the same offset list for every chunk size of at least
the stream's length — namely the de-duplicated line-start matches of the whole
stream; and for every start cursor and every positive chunk size, the returned
offset list is strictly increasing, hence ordered and duplicate-free
(overlap-induced duplicates removed preserving first-seen order).  For chunk
sizes smaller than the stream the offset lists may differ between chunk sizes
(see the counterexample: a buffer beginning mid-line acts as a line anchor). -/
theorem claim_C5_search_in_file (stream pat : List Nat) (hp : 0 < pat.length)
    (hpN : pat.length ≤ stream.length) :
    (∀ B1 B2 : Nat, stream.length ≤ B1 → stream.length ≤ B2 →
      search_in_file stream [pat] 0 B1 = search_in_file stream [pat] 0 B2) ∧
    (∀ B : Nat, stream.length ≤ B →
      search_in_file stream [pat] 0 B = some [dedupFirst [] (findMatches stream pat)]) ∧
    (∀ (seek B : Nat) (res : List (List Nat)), 0 < B →
      search_in_file stream [pat] seek B = some res →
      ∃ l, res = [l] ∧ l.Pairwise (· < ·)) := by
  refine ⟨?_, fun B hB => search_in_file_bigB stream pat hp hpN B hB, ?_⟩
  · intro B1 B2 h1 h2
    rw [search_in_file_bigB stream pat hp hpN B1 h1,
      search_in_file_bigB stream pat hp hpN B2 h2]
  · intro seek B res hB hres
    simp only [search_in_file, List.map_cons, List.map_nil, List.foldr_cons,
      List.foldr_nil, Nat.max_zero] at hres
    have hq := Nat.div_add_mod pat.length B
    have hm := Nat.mod_lt pat.length hB
    have hmul : B * (pat.length / B + 1) = B * (pat.length / B) + B := Nat.mul_succ B _
    refine searchLoop_pairwise stream pat hp _ (by omega) _ seek []
      List.Pairwise.nil (by simp) res hres

/-- Witness for C5 (amended) on the counterexample stream: at chunk sizes 12
and 300 (both at least the stream length) the results agree and equal the
de-duplicated whole-stream matches `[[0]]`. -/
theorem claim_C5_search_in_file_witness :
    (0 : Nat) < ([112, 97, 116] : List Nat).length ∧
    search_in_file [97, 97, 97, 97, 97, 97, 97, 97, 112, 97, 116, 10]
      [[112, 97, 116]] 0 12 = some [[0]] ∧
    search_in_file [97, 97, 97, 97, 97, 97, 97, 97, 112, 97, 116, 10]
      [[112, 97, 116]] 0 12 =
      search_in_file [97, 97, 97, 97, 97, 97, 97, 97, 112, 97, 116, 10]
        [[112, 97, 116]] 0 300 :=
  ⟨by decide,
    ((claim_C5_search_in_file [97, 97, 97, 97, 97, 97, 97, 97, 112, 97, 116, 10]
        [112, 97, 116] (by decide) (by decide)).2.1 12 (by decide)).trans (by decide),
    (claim_C5_search_in_file [97, 97, 97, 97, 97, 97, 97, 97, 112, 97, 116, 10]
        [112, 97, 116] (by decide) (by decide)).1 12 300 (by decide) (by decide)⟩

end Sfio
